import Mathlib

/-!
# Verification of the MolMIM notebook client logic

Shallow embedding of the post-processing logic of the three MolMIM example
notebooks (`1-ClusterMolMIMEmbeddings`, `2-MolMIMInterpolation`,
`3-MolMIMGeneration`): response-field extraction, linear interpolation of
hidden-state vectors, decode-request packaging, stable deduplication, the
Tanimoto similarity helper and the sweep drivers.  Machine floats are
modelled by `ℚ` (all the arithmetic involved is exact affine arithmetic,
set cardinalities and means), RDKit molecules by an abstract type
parameter, and the external parsing / fingerprinting capabilities by
function parameters.  Python exceptions are modelled by an explicit error
type and `Except`.
-/

set_option autoImplicit false

namespace MolMIM

/-- Python/RDKit exceptions observable from the notebook code.
`keyError` models a `KeyError` from a dict lookup, `indexError` an
`IndexError` from indexing past the end of an array, `zeroDivision` a
`ZeroDivisionError` from `i / 0`, and `argumentError` the Boost
`ArgumentError` RDKit raises when `GetMorganFingerprintAsBitVect` is
handed `None`.  `degenerateInput` is the dedicated rejection error the
specification prescribes for a degenerate interpolation count
(`DegenerateInputError`); the source never raises it. -/
inductive PyError where
  | keyError
  | indexError
  | zeroDivision
  | argumentError
  | degenerateInput
  deriving DecidableEq

/-- One interpolated row, `interpolated_row = (1 - t) * row1 + t * row2`
(2-MolMIMInterpolation): componentwise affine combination of the two
equal-length hidden-state vectors. -/
def lerpRow (row1 row2 : List ℚ) (t : ℚ) : List ℚ :=
  List.zipWith (fun a b => (1 - t) * a + t * b) row1 row2

/-- The interpolation loop of 2-MolMIMInterpolation:
`for i in range(n_interp): t = i / (n_interp - 1); ... append((1-t)*row1 + t*row2)`
with the count `n_interp` (fixed to 50 in the notebook) as a parameter.
For `n = 1` the first iteration evaluates `0 / 0` on Python ints, which
raises `ZeroDivisionError`; this is modelled as `Except.error .zeroDivision`.
For `n = 0` the loop body never runs and the result is the empty list. -/
def interpolate (row1 row2 : List ℚ) (n : ℕ) : Except PyError (List (List ℚ)) :=
  if n = 1 then .error .zeroDivision
  else .ok ((List.range n).map fun i : ℕ =>
    lerpRow row1 row2 ((i : ℚ) / ((n : ℚ) - 1)))

/-- `list(dict.fromkeys(xs))` (2-MolMIMInterpolation): Python dicts preserve
insertion order and `dict.fromkeys` keeps only the first occurrence of each
key, so this is a stable first-occurrence deduplication. -/
def dictFromKeys (xs : List String) : List String :=
  xs.foldl (fun acc x => if x ∈ acc then acc else acc ++ [x]) []

/-- Spec-side statement of stable dedup: keep the head, drop all of its later
duplicates, recurse.  Used to compare `dictFromKeys` against the
specification's wording ("duplicates removed, keeping each retained element
at its first occurrence's position"). -/
def dedupFirstOcc : List String → List String
  | [] => []
  | x :: xs => x :: dedupFirstOcc (xs.filter (· ≠ x))
termination_by xs => xs.length
decreasing_by
  simp only [List.length_cons]
  exact Nat.lt_succ_of_le (List.length_filter_le _ _)

theorem dedupFirstOcc_nil : dedupFirstOcc [] = [] := by
  rw [dedupFirstOcc]

theorem dedupFirstOcc_cons (x : String) (xs : List String) :
    dedupFirstOcc (x :: xs) = x :: dedupFirstOcc (xs.filter (· ≠ x)) := by
  rw [dedupFirstOcc]

theorem mem_dedupFirstOcc (a : String) (xs : List String) :
    a ∈ dedupFirstOcc xs ↔ a ∈ xs := by
  induction xs using dedupFirstOcc.induct with
  | case1 => simp [dedupFirstOcc_nil]
  | case2 x xs ih =>
    rw [dedupFirstOcc_cons, List.mem_cons]
    by_cases hax : a = x
    · simp [hax]
    · rw [ih, List.mem_filter]
      simp [hax]

theorem dedupFirstOcc_nodup (xs : List String) : (dedupFirstOcc xs).Nodup := by
  induction xs using dedupFirstOcc.induct with
  | case1 => simp [dedupFirstOcc_nil]
  | case2 x xs ih =>
    rw [dedupFirstOcc_cons]
    refine List.nodup_cons.2 ⟨fun hx => ?_, ih⟩
    have := (mem_dedupFirstOcc x _).1 hx
    simp [List.mem_filter] at this

theorem dedupFirstOcc_of_nodup (xs : List String) (h : xs.Nodup) :
    dedupFirstOcc xs = xs := by
  induction xs using dedupFirstOcc.induct with
  | case1 => exact dedupFirstOcc_nil
  | case2 x xs ih =>
    rw [dedupFirstOcc_cons]
    rcases List.nodup_cons.1 h with ⟨hx, hxs⟩
    have hfilter : xs.filter (· ≠ x) = xs := by
      apply List.filter_eq_self.2
      intro a ha
      simp only [ne_eq, decide_eq_true_eq]
      intro hax
      exact hx (hax ▸ ha)
    rw [hfilter] at ih ⊢
    rw [ih hxs]

theorem dictFromKeys_go (xs : List String) : ∀ acc : List String,
    xs.foldl (fun acc x => if x ∈ acc then acc else acc ++ [x]) acc
      = acc ++ dedupFirstOcc (xs.filter (· ∉ acc)) := by
  induction xs with
  | nil => intro acc; simp [dedupFirstOcc_nil]
  | cons x xs ih =>
    intro acc
    by_cases hx : x ∈ acc
    · simp only [List.foldl_cons, if_pos hx, List.filter_cons,
        decide_eq_true_eq]
      rw [if_neg (by simp [hx])]
      exact ih acc
    · simp only [List.foldl_cons, if_neg hx, List.filter_cons]
      rw [if_pos (by simp [hx])]
      rw [ih (acc ++ [x]), dedupFirstOcc_cons]
      have hpred : xs.filter (· ∉ acc ++ [x])
          = (xs.filter (· ∉ acc)).filter (· ≠ x) := by
        rw [List.filter_filter]
        apply List.filter_congr
        intro a _
        by_cases hax : a = x <;> by_cases ha : a ∈ acc <;>
          simp [hax, ha, List.mem_append]
      rw [hpred]
      simp

theorem dictFromKeys_eq_dedupFirstOcc (xs : List String) :
    dictFromKeys xs = dedupFirstOcc xs := by
  have h := dictFromKeys_go xs []
  simpa [dictFromKeys] using h

theorem dictFromKeys_nodup (xs : List String) : (dictFromKeys xs).Nodup := by
  rw [dictFromKeys_eq_dedupFirstOcc]; exact dedupFirstOcc_nodup xs

/-- C4: for every ordered sequence of strings, `list(dict.fromkeys(xs))` is
the stable, insertion-order-preserving deduplication (each retained element
sits at its first occurrence's position: head kept, later duplicates of the
head removed, rest deduplicated recursively), and on the spec's example it
returns `["a","b","c"]`. -/
theorem dict_fromkeys_stable_dedup :
    (∀ xs : List String, dictFromKeys xs = dedupFirstOcc xs) ∧
    dictFromKeys ["a", "b", "a", "c", "b"] = ["a", "b", "c"] := by
  refine ⟨dictFromKeys_eq_dedupFirstOcc, ?_⟩
  rfl

/-- C10: deduplication is idempotent, and every element of the deduplicated
list occurs in it exactly once. -/
theorem dict_fromkeys_idempotent :
    (∀ xs : List String, dictFromKeys (dictFromKeys xs) = dictFromKeys xs) ∧
    (∀ (xs : List String) (a : String),
      a ∈ dictFromKeys xs → (dictFromKeys xs).count a = 1) := by
  constructor
  · intro xs
    rw [dictFromKeys_eq_dedupFirstOcc (dictFromKeys xs)]
    exact dedupFirstOcc_of_nodup _ (dictFromKeys_nodup xs)
  · intro xs a ha
    exact List.count_eq_one_of_mem (dictFromKeys_nodup xs) ha

/-- C2 counterexample: with interpolation count `n = 1` the code raises the
propagated `ZeroDivisionError` from `t = i / (n_interp - 1)`, not the
`DegenerateInputError` the claim prescribes. -/
theorem interpolate_one_not_degenerate_error :
    interpolate [0] [1] 1 = Except.error PyError.zeroDivision ∧
    interpolate [0] [1] 1 ≠ Except.error PyError.degenerateInput := by
  refine ⟨rfl, ?_⟩
  intro h
  simp [interpolate] at h

/-- C2 amended: calling the interpolation with `n = 1` fails with the
division-by-zero error propagating out of `t = i / (n_interp - 1)`; no
explicit `DegenerateInputError` guard exists in the code. -/
theorem interpolate_one_zero_division (row1 row2 : List ℚ) :
    interpolate row1 row2 1 = Except.error PyError.zeroDivision := rfl

/-- The decode request of 2-MolMIMInterpolation. -/
structure DecodeRequest where
  hiddens : List (List (List ℚ))
  mask : List (List Bool)

/-- `np.expand_dims(np.array(interpolated_rows), axis=1)`: inserts a
singleton axis after the batch axis, turning shape `(n, d)` into
`(n, 1, d)`. -/
def expandDimsAxis1 (rows : List (List ℚ)) : List (List (List ℚ)) :=
  rows.map (fun r => [r])

/-- `interpolated_hiddens_json = {"hiddens": interpolated_hiddens.tolist(),
"mask": [[True] for i in range(n_interp)]}` — in the notebook
`interpolated_rows` has length `n_interp`, so the mask length is the row
count. -/
def buildDecodeRequest (rows : List (List ℚ)) : DecodeRequest :=
  { hiddens := expandDimsAxis1 rows
    mask := (List.range rows.length).map (fun _ => [true]) }

/-- C8: packaging `n` interpolated hidden vectors of dimension `d` yields a
`hiddens` field of shape `(n, 1, d)` and a mask of length `n` whose every
entry is `[true]` (every boolean in the mask is `true`). -/
theorem buildDecodeRequest_shape (rows : List (List ℚ)) (d : ℕ)
    (hd : ∀ r ∈ rows, r.length = d) :
    (buildDecodeRequest rows).hiddens.length = rows.length ∧
    (∀ x ∈ (buildDecodeRequest rows).hiddens,
      x.length = 1 ∧ ∀ y ∈ x, y.length = d) ∧
    (buildDecodeRequest rows).mask.length = rows.length ∧
    (∀ e ∈ (buildDecodeRequest rows).mask, e = [true]) ∧
    (∀ e ∈ (buildDecodeRequest rows).mask, ∀ b ∈ e, b = true) := by
  refine ⟨?_, ?_, ?_, ?_, ?_⟩
  · simp [buildDecodeRequest, expandDimsAxis1]
  · intro x hx
    simp only [buildDecodeRequest, expandDimsAxis1, List.mem_map] at hx
    obtain ⟨r, hr, rfl⟩ := hx
    refine ⟨rfl, ?_⟩
    intro y hy
    rw [List.mem_singleton] at hy
    exact hy ▸ hd r hr
  · simp [buildDecodeRequest]
  · intro e he
    simp only [buildDecodeRequest, List.mem_map] at he
    obtain ⟨i, _, rfl⟩ := he
    rfl
  · intro e he b hb
    simp only [buildDecodeRequest, List.mem_map] at he
    obtain ⟨i, _, rfl⟩ := he
    rw [List.mem_singleton] at hb
    exact hb

/-- Witness for C8 at three concrete rows of dimension 2. -/
theorem buildDecodeRequest_shape_witness :
    (buildDecodeRequest [[1, 2], [3, 4], [5, 6]]).hiddens.length = 3 ∧
    (∀ x ∈ (buildDecodeRequest [[1, 2], [3, 4], [5, 6]]).hiddens,
      x.length = 1 ∧ ∀ y ∈ x, y.length = 2) ∧
    (buildDecodeRequest [[1, 2], [3, 4], [5, 6]]).mask.length = 3 ∧
    (∀ e ∈ (buildDecodeRequest [[1, 2], [3, 4], [5, 6]]).mask, e = [true]) ∧
    (∀ e ∈ (buildDecodeRequest [[1, 2], [3, 4], [5, 6]]).mask,
      ∀ b ∈ e, b = true) :=
  buildDecodeRequest_shape [[1, 2], [3, 4], [5, 6]] 2
    (by intro r hr; fin_cases hr <;> rfl)

/-- The Tanimoto coefficient of two 2048-bit fingerprints, viewed as sets of
set bits: `|A ∩ B| / |A ∪ B|` (rdkit `TanimotoSimilarity`; for two all-zero
vectors rdkit returns 0, which coincides with `ℚ`'s `0 / 0 = 0`). -/
def tanimotoCoeff (fp1 fp2 : Finset (Fin 2048)) : ℚ :=
  ((fp1 ∩ fp2).card : ℚ) / ((fp1 ∪ fp2).card : ℚ)

/-- `tanimoto_similarity(smiles, reference)` from 3-MolMIMGeneration.  The
external rdkit capabilities are parameters: `parse` models
`Chem.MolFromSmiles` (`none` for an unparsable SMILES) and `fingerprint`
models `GetMorganFingerprintAsBitVect(mol, radius=2, nBits=2048)` as the
set of bits set in the 2048-bit vector.  The source fingerprints the
reference first — handing `None` to the fingerprinter raises a Boost
`ArgumentError`, modelled as `.error .argumentError` — and only then
validates the candidate, returning the explicit degenerate value `0` when
it fails to parse. -/
def tanimoto_similarity {Mol : Type} (parse : String → Option Mol)
    (fingerprint : Mol → Finset (Fin 2048)) (smiles reference : String) :
    Except PyError ℚ :=
  match parse reference with
  | none => .error .argumentError
  | some referenceMol =>
    match parse smiles with
    | none => .ok 0
    | some mol => .ok (tanimotoCoeff (fingerprint mol) (fingerprint referenceMol))

/-- C6: an unparsable candidate SMILES yields the degenerate value 0 (not an
error), while an unparsable reference SMILES is an unhandled fatal error
(the rdkit `ArgumentError` from fingerprinting `None`). -/
theorem tanimoto_similarity_parse_failures {Mol : Type}
    (parse : String → Option Mol) (fingerprint : Mol → Finset (Fin 2048))
    (smiles reference : String) :
    (parse smiles = none → (parse reference).isSome →
      tanimoto_similarity parse fingerprint smiles reference = Except.ok 0) ∧
    (parse reference = none →
      tanimoto_similarity parse fingerprint smiles reference
        = Except.error PyError.argumentError) := by
  constructor
  · intro hs href
    rcases Option.isSome_iff_exists.1 href with ⟨m, hm⟩
    simp [tanimoto_similarity, hm, hs]
  · intro href
    simp [tanimoto_similarity, href]

/-- Witness for C6 with a parser that accepts exactly the string "CC". -/
theorem tanimoto_similarity_parse_failures_witness :
    tanimoto_similarity (fun s => if s = "CC" then some () else none)
      (fun _ => ({0} : Finset (Fin 2048))) "]z[" "CC" = Except.ok 0 ∧
    tanimoto_similarity (fun s => if s = "CC" then some () else none)
      (fun _ => ({0} : Finset (Fin 2048))) "CC" "]z[" =
      Except.error PyError.argumentError := by
  constructor
  · exact (tanimoto_similarity_parse_failures _ _ "]z[" "CC").1 (by decide) (by decide)
  · exact (tanimoto_similarity_parse_failures _ _ "CC" "]z[").2 (by decide)

/-- C7 counterexample: `Chem.MolFromSmiles("")` returns the 0-atom molecule
(not `None`), whose radius-2/2048-bit Morgan fingerprint has no bits set,
and rdkit's Tanimoto similarity of two all-zero bit vectors is 0 — so the
self-similarity at the valid SMILES `""` is 0, not 1.  The external
capabilities are instantiated accordingly: the parser accepts the input and
the fingerprint of its molecule is the empty bit-set. -/
theorem tanimoto_self_empty_fingerprint :
    tanimoto_similarity (fun _ : String => some ())
      (fun _ : Unit => (∅ : Finset (Fin 2048))) "" "" = Except.ok 0 ∧
    (0 : ℚ) ≠ 1 := by
  constructor
  · simp [tanimoto_similarity, tanimotoCoeff]
  · norm_num

/-- C7 amended: for every SMILES that parses into a molecule whose
radius-2, 2048-bit fingerprint has at least one bit set (any molecule with
at least one atom), the self-similarity is exactly 1; only the empty
fingerprint escapes this. -/
theorem tanimoto_self_similarity_nonempty {Mol : Type}
    (parse : String → Option Mol) (fingerprint : Mol → Finset (Fin 2048))
    (s : String) (m : Mol) (hparse : parse s = some m)
    (hfp : (fingerprint m).Nonempty) :
    tanimoto_similarity parse fingerprint s s = Except.ok 1 := by
  simp only [tanimoto_similarity, hparse, tanimotoCoeff,
    Finset.inter_self, Finset.union_self]
  rw [div_self]
  exact_mod_cast Finset.card_ne_zero_of_mem hfp.choose_spec

/-- Witness for C7's amended theorem: a one-bit fingerprint gives
self-similarity 1. -/
theorem tanimoto_self_similarity_nonempty_witness :
    tanimoto_similarity (fun _ : String => some ())
      (fun _ : Unit => ({0} : Finset (Fin 2048))) "CC" "CC" = Except.ok 1 :=
  tanimoto_self_similarity_nonempty _ _ "CC" () rfl ⟨0, Finset.mem_singleton_self 0⟩

/-- `np.mean(xs)`: the arithmetic mean of a list of numbers.  `np.mean([])`
evaluates to NaN (emitting a RuntimeWarning), i.e. a missing value; the
missing value is modelled as `none`. -/
def npMean (xs : List ℚ) : Option ℚ :=
  if xs.isEmpty then none else some (xs.sum / (xs.length : ℚ))

/-- The per-parameter record built by both sweep loops of 3-MolMIMGeneration
(`radius_results` / `min_sim_results`) after the two score lists are
replaced by their means. -/
structure SweepRecord where
  valid_smiles : ℕ
  tanimoto_similarity : Option ℚ
  qed_score : Option ℚ

/-- `valid_smiles = [m for m in generated_molecules if Chem.MolFromSmiles(m)
is not None]` (3-MolMIMGeneration, both sweep loops). -/
def validSmiles {Mol : Type} (parse : String → Option Mol)
    (generated : List String) : List String :=
  generated.filter (fun m => (parse m).isSome)

/-- The scoring loop of 3-MolMIMGeneration: for each valid SMILES, re-parse
it, and if the molecule is truthy (`if mol:` — any rdkit `Mol` object is
truthy), append the Tanimoto similarity against the fixed reference and the
QED score to the two parallel lists.  `tanim` abstracts
`tanimoto_similarity(smile, upadacitinib)` at the fixed, always-valid
reference, and `qedOf` abstracts rdkit's `qed(mol)`. -/
def scoredPairs {Mol : Type} (parse : String → Option Mol)
    (tanim : String → ℚ) (qedOf : Mol → ℚ) (generated : List String) :
    List (ℚ × ℚ) :=
  (validSmiles parse generated).filterMap
    (fun s => (parse s).map (fun mol => (tanim s, qedOf mol)))

/-- One sweep iteration's record (3-MolMIMGeneration, both loops): the valid
count and the two means taken with `np.mean` over the score lists. -/
def processSweepPoint {Mol : Type} (parse : String → Option Mol)
    (tanim : String → ℚ) (qedOf : Mol → ℚ) (generated : List String) :
    SweepRecord :=
  { valid_smiles := (validSmiles parse generated).length
    tanimoto_similarity :=
      npMean ((scoredPairs parse tanim qedOf generated).map Prod.fst)
    qed_score :=
      npMean ((scoredPairs parse tanim qedOf generated).map Prod.snd) }

theorem filterMap_isSome_length {α β γ : Type} (f : α → Option β)
    (g : α → β → γ) (l : List α) (h : ∀ a ∈ l, (f a).isSome) :
    (l.filterMap (fun a => (f a).map (g a))).length = l.length := by
  induction l with
  | nil => rfl
  | cons a l ih =>
    rcases Option.isSome_iff_exists.1 (h a (List.mem_cons_self a l)) with ⟨b, hb⟩
    rw [List.filterMap_cons, hb]
    simp only [Option.map_some', List.length_cons]
    rw [ih (fun x hx => h x (List.mem_cons_of_mem a hx))]

theorem scoredPairs_length {Mol : Type} (parse : String → Option Mol)
    (tanim : String → ℚ) (qedOf : Mol → ℚ) (generated : List String) :
    (scoredPairs parse tanim qedOf generated).length
      = (validSmiles parse generated).length := by
  unfold scoredPairs
  exact filterMap_isSome_length parse (fun s mol => (tanim s, qedOf mol)) _
    (fun s hs => (List.mem_filter.1 hs).2)

/-- C5: when no generated SMILES parses successfully, the recorded mean
similarity and mean QED are the missing value (NaN from `np.mean([])`,
modelled `none`), never zero. -/
theorem sweep_empty_mean_missing {Mol : Type} (parse : String → Option Mol)
    (tanim : String → ℚ) (qedOf : Mol → ℚ) (generated : List String)
    (h : ∀ m ∈ generated, parse m = none) :
    (processSweepPoint parse tanim qedOf generated).tanimoto_similarity = none ∧
    (processSweepPoint parse tanim qedOf generated).qed_score = none ∧
    (processSweepPoint parse tanim qedOf generated).tanimoto_similarity ≠ some 0 ∧
    (processSweepPoint parse tanim qedOf generated).qed_score ≠ some 0 := by
  have hvalid : validSmiles parse generated = [] := by
    apply List.filter_eq_nil_iff.2
    intro m hm
    simp [h m hm]
  have hpairs : scoredPairs parse tanim qedOf generated = [] := by
    unfold scoredPairs
    rw [hvalid]
    rfl
  refine ⟨?_, ?_, ?_, ?_⟩ <;>
    simp [processSweepPoint, hpairs, npMean]

/-- Witness for C5: a response whose two generated strings both fail to
parse yields missing means. -/
theorem sweep_empty_mean_missing_witness :
    (processSweepPoint (fun _ : String => (none : Option Unit))
      (fun _ => 0) (fun _ => 0) ["]z[", "not-a-smiles"]).tanimoto_similarity
        = none ∧
    (processSweepPoint (fun _ : String => (none : Option Unit))
      (fun _ => 0) (fun _ => 0) ["]z[", "not-a-smiles"]).qed_score = none ∧
    (processSweepPoint (fun _ : String => (none : Option Unit))
      (fun _ => 0) (fun _ => 0) ["]z[", "not-a-smiles"]).tanimoto_similarity
        ≠ some 0 ∧
    (processSweepPoint (fun _ : String => (none : Option Unit))
      (fun _ => 0) (fun _ => 0) ["]z[", "not-a-smiles"]).qed_score ≠ some 0 :=
  sweep_empty_mean_missing _ _ _ _ (fun _ _ => rfl)

/-- C9: in each sweep iteration the similarity list and the QED list receive
exactly one entry per valid SMILES — the candidates are pre-filtered to the
parseable ones and parsing is deterministic, so the inner re-parse check
never drops an element and the three recorded quantities stay in lockstep
with `count_valid`. -/
theorem sweep_score_lists_lockstep {Mol : Type} (parse : String → Option Mol)
    (tanim : String → ℚ) (qedOf : Mol → ℚ) (generated : List String) :
    ((scoredPairs parse tanim qedOf generated).map Prod.fst).length
      = (validSmiles parse generated).length ∧
    ((scoredPairs parse tanim qedOf generated).map Prod.snd).length
      = (validSmiles parse generated).length ∧
    (processSweepPoint parse tanim qedOf generated).valid_smiles
      = (validSmiles parse generated).length := by
  refine ⟨?_, ?_, rfl⟩ <;>
    rw [List.length_map, scoredPairs_length]

theorem lerpRow_zero (row1 row2 : List ℚ) (h : row1.length = row2.length) :
    lerpRow row1 row2 0 = row1 := by
  induction row1 generalizing row2 with
  | nil => rfl
  | cons a l ih =>
    cases row2 with
    | nil => simp at h
    | cons b l2 =>
      simp only [List.length_cons, add_left_inj] at h
      show ((1 - 0) * a + 0 * b) :: lerpRow l l2 0 = a :: l
      rw [ih l2 h]
      norm_num

theorem lerpRow_one (row1 row2 : List ℚ) (h : row1.length = row2.length) :
    lerpRow row1 row2 1 = row2 := by
  induction row1 generalizing row2 with
  | nil => cases row2 with
    | nil => rfl
    | cons b l2 => simp at h
  | cons a l ih =>
    cases row2 with
    | nil => simp at h
    | cons b l2 =>
      simp only [List.length_cons, add_left_inj] at h
      show ((1 - 1) * a + 1 * b) :: lerpRow l l2 1 = b :: l2
      rw [ih l2 h]
      norm_num

theorem lerpRow_getD (row1 row2 : List ℚ) (t : ℚ) (k : ℕ)
    (hk : k < row1.length) (h : row1.length = row2.length) :
    (lerpRow row1 row2 t).getD k 0
      = (1 - t) * row1.getD k 0 + t * row2.getD k 0 := by
  induction row1 generalizing row2 k with
  | nil => simp at hk
  | cons a l ih =>
    cases row2 with
    | nil => simp at h
    | cons b l2 =>
      simp only [List.length_cons, add_left_inj] at h
      cases k with
      | zero =>
        show (((1 - t) * a + t * b) :: lerpRow l l2 t).getD 0 0 = _
        rw [List.getD_cons_zero, List.getD_cons_zero, List.getD_cons_zero]
      | succ k =>
        show (((1 - t) * a + t * b) :: lerpRow l l2 t).getD (k + 1) 0 = _
        rw [List.getD_cons_succ, List.getD_cons_succ, List.getD_cons_succ]
        exact ih l2 k (by simpa using Nat.lt_of_succ_lt_succ hk) h

theorem range_map_getD {α : Type} (n i : ℕ) (f : ℕ → α) (d : α)
    (hi : i < n) : ((List.range n).map f).getD i d = f i := by
  rw [List.getD_eq_getElem?_getD, List.getElem?_map, List.getElem?_range hi]
  rfl

/-- C1: for equal-length vectors and `n ≥ 2`, the interpolation loop
succeeds and produces an ordered sequence of exactly `n` vectors whose
element `i` is `(1 - t) * row1 + t * row2` with `t = i / (n - 1)`; element
0 is `row1`, element `n - 1` is `row2` (exactly, over `ℚ`), and the values
transition monotonically componentwise from `row1` to `row2`. -/
theorem interpolate_ordered_monotone (row1 row2 : List ℚ) (n : ℕ)
    (hlen : row1.length = row2.length) (hn : 2 ≤ n) :
    ∃ L, interpolate row1 row2 n = Except.ok L ∧
      L.length = n ∧
      (∀ i, i < n →
        L.getD i [] = lerpRow row1 row2 ((i : ℚ) / ((n : ℚ) - 1))) ∧
      L.getD 0 [] = row1 ∧
      L.getD (n - 1) [] = row2 ∧
      (∀ i j, i ≤ j → j < n → ∀ k, k < row1.length →
        ((row1.getD k 0 ≤ row2.getD k 0 →
            (L.getD i []).getD k 0 ≤ (L.getD j []).getD k 0) ∧
         (row2.getD k 0 ≤ row1.getD k 0 →
            (L.getD j []).getD k 0 ≤ (L.getD i []).getD k 0))) := by
  have hn1 : ¬ n = 1 := by omega
  have hcast2 : (2 : ℚ) ≤ (n : ℚ) := by exact_mod_cast hn
  have hpos : (0 : ℚ) < (n : ℚ) - 1 := by linarith
  have hne : ((n : ℚ) - 1) ≠ 0 := ne_of_gt hpos
  refine ⟨(List.range n).map
      (fun i : ℕ => lerpRow row1 row2 ((i : ℚ) / ((n : ℚ) - 1))),
    ?_, ?_, ?_, ?_, ?_, ?_⟩
  · simp [interpolate, hn1]
  · simp
  · intro i hi
    exact range_map_getD n i _ [] hi
  · rw [range_map_getD n 0 _ [] (by omega)]
    norm_num
    exact lerpRow_zero row1 row2 hlen
  · rw [range_map_getD n (n - 1) _ [] (by omega)]
    have hcast : ((n - 1 : ℕ) : ℚ) = (n : ℚ) - 1 := by
      have h1 : 1 ≤ n := by omega
      push_cast [h1]
      ring
    rw [hcast, div_self hne]
    exact lerpRow_one row1 row2 hlen
  · intro i j hij hj k hk
    rw [range_map_getD n i _ [] (by omega), range_map_getD n j _ [] (by omega)]
    rw [lerpRow_getD row1 row2 _ k hk hlen, lerpRow_getD row1 row2 _ k hk hlen]
    have ht : ((i : ℚ) / ((n : ℚ) - 1)) ≤ ((j : ℚ) / ((n : ℚ) - 1)) :=
      (div_le_div_iff_of_pos_right hpos).2 (by exact_mod_cast hij)
    constructor
    · intro hab
      nlinarith [mul_nonneg (sub_nonneg.2 ht) (sub_nonneg.2 hab)]
    · intro hba
      nlinarith [mul_nonneg (sub_nonneg.2 ht) (sub_nonneg.2 hba)]

/-- Witness for C1: interpolating between `[0, 4]` and `[2, 0]` with
`n = 3` (one increasing and one decreasing component). -/
theorem interpolate_ordered_monotone_witness :
    ∃ L, interpolate [0, 4] [2, 0] 3 = Except.ok L ∧
      L.length = 3 ∧
      (∀ i, i < 3 →
        L.getD i [] = lerpRow [0, 4] [2, 0] ((i : ℚ) / ((3 : ℚ) - 1))) ∧
      L.getD 0 [] = [0, 4] ∧
      L.getD (3 - 1) [] = [2, 0] ∧
      (∀ i j, i ≤ j → j < 3 → ∀ k, k < ([0, 4] : List ℚ).length →
        ((([0, 4] : List ℚ).getD k 0 ≤ ([2, 0] : List ℚ).getD k 0 →
            (L.getD i []).getD k 0 ≤ (L.getD j []).getD k 0) ∧
         (([2, 0] : List ℚ).getD k 0 ≤ ([0, 4] : List ℚ).getD k 0 →
            (L.getD j []).getD k 0 ≤ (L.getD i []).getD k 0))) :=
  interpolate_ordered_monotone [0, 4] [2, 0] 3 rfl (by omega)

end MolMIM
